import Mathlib

/- Shallow embedding of `weget.py` (version 0.4.0), a command-line wrapper
around the external `winget` package manager.  Pure string manipulation is
translated directly from the Python source.  Filesystem and process effects
are represented by an explicit environment of oracles (`Env`) describing
what the outside world would answer, and by traces of events (`Ev`)
recording which external actions the program performs and in which order.
Paths under the user's Downloads directory are represented by the folder
name relative to that directory; `os.path.join` on Windows inserts a
backslash.  Modification times are abstracted to integers (only their
ordering matters to the program).  A `winget` subprocess return code is
modelled by `Env.wingetRet`, with the exception handler of `run_winget`
folded in (it maps a raised exception to return code 1). -/

namespace Weget

/- Python substring test `pat in s` (str.__contains__), on character lists. -/
def containsAux (pat : List Char) : List Char → Bool
  | [] => pat.isEmpty
  | c :: cs => pat.isPrefixOf (c :: cs) || containsAux pat cs

def strContains (s pat : String) : Bool := containsAux pat.data s.data

/- Python `str.startswith(pat)`. -/
def strStartsWith (s pat : String) : Bool := pat.data.isPrefixOf s.data

/- Python `str.endswith(pat)`. -/
def strEndsWith (s pat : String) : Bool := pat.data.reverse.isPrefixOf s.data.reverse

/- Python `str.lower()`. -/
def strLower (s : String) : String := String.mk (s.data.map Char.toLower)

/- Python `str.strip()`: drop leading and trailing whitespace. -/
def pyTrim (s : String) : String :=
  String.mk (((s.data.dropWhile Char.isWhitespace).reverse.dropWhile Char.isWhitespace).reverse)

/- Python `str.split(sep)` for a one-character separator: chunks between
occurrences of the separator, empty chunks kept. -/
def pySplit (sep : Char) : List Char → List (List Char)
  | [] => [[]]
  | c :: cs =>
    match pySplit sep cs with
    | [] => [[]]
    | chunk :: rest => if c = sep then [] :: chunk :: rest else (c :: chunk) :: rest

/- `package_id.split('.')[-1]` (weget.py line 59): the short name used for
matching download folder names. -/
def shortName (package_id : String) : String :=
  String.mk ((pySplit '.' package_id.data).getLastD package_id.data)

/- One entry of the Downloads directory listing: its name, whether it is a
directory, and its modification time. -/
structure DirEntry where
  name : String
  isDir : Bool
  mtime : Int
deriving DecidableEq

/- Python `max(folders, key=os.path.getmtime)`: the first entry whose
modification time is maximal. -/
def maxByMtime : List DirEntry → Option DirEntry
  | [] => none
  | e :: es => some (es.foldl (fun best x => if best.mtime < x.mtime then x else best) e)

/- weget.py lines 61-66: folders in Downloads that are directories and whose
name contains the package's short name. -/
def matchingFolders (entries : List DirEntry) (package_id : String) : List DirEntry :=
  entries.filter (fun e => e.isDir && strContains e.name (shortName package_id))

/- weget.py `find_latest_download` (lines 48-72), with the Downloads listing
supplied explicitly. -/
def find_latest_download (entries : List DirEntry) (package_id : String) : Option String :=
  match maxByMtime (matchingFolders entries package_id) with
  | none => none
  | some e => some e.name

/- External actions of one invocation, in program order. -/
inductive Ev where
  | ranWinget (args : List String)
  | madeDirs (path : String)
  | moved (src dst : String)
  | removedTree (path : String)
  | archived (zipPath folder : String)
  | ranInstaller (path : String)
  | noExecutable (folder : String)
  | popen (cmdline : String) (ok : Bool)
  | printedFailedList (packages : List String)
deriving DecidableEq

/- Oracles for the outside world during one invocation. -/
structure Env where
  wingetAvailable : Bool
  wingetRet : List String → Int
  downloads : List DirEntry
  destExists : Bool
  moveOk : Bool
  archiveOk : Bool
  runOk : Bool
  rmtreeOk : Bool
  targetEntries : List String
  launchOk : String → Bool

/- `os.path.join` on Windows. -/
def pathJoin (a b : String) : String := a ++ "\\" ++ b

/- Python truthiness of the `output_path` variable (`if output_path:`):
false for `None` and for the empty string. -/
def optTruthy : Option String → Bool
  | some s => !(s == "")
  | none => false

/- Characters `shlex.quote` leaves unquoted: letters, digits, and the
characters underscore @ % + = : , . slash dash. -/
def shlexSafe (c : Char) : Bool :=
  c.isAlphanum || c = '_' || c = '@' || c = '%' || c = '+' || c = '=' ||
    c = ':' || c = ',' || c = '.' || c = '/' || c = '-'

/- Python `shlex.quote` (the \x27 escapes denote the single-quote char). -/
def shlexQuote (s : String) : String :=
  if s = "" then "\x27\x27"
  else if s.data.all shlexSafe then s
  else "\x27" ++ (s.replace "\x27" "\x27\"\x27\"\x27") ++ "\x27"

/- The command line built for one spawned window (weget.py lines 168/170). -/
def spawnCmdline (command package : String) : String :=
  "start cmd /k \"winget " ++ command ++ " " ++ shlexQuote package ++ " && exit || pause\""

/- weget.py lines 167-170: the source branches on
`command == "download" and output_path` but builds the identical string in
both branches. -/
def spawnCmdlineFor (command : String) (output_path : Option String) (package : String) : String :=
  if command = "download" ∧ optTruthy output_path then spawnCmdline command package
  else spawnCmdline command package

def isInstallerFile (item : String) : Bool := strEndsWith item ".exe" || strEndsWith item ".msi"

/- weget.py lines 142-146: the first directory entry ending in .exe or .msi. -/
def firstInstaller (items : List String) : Option String := items.find? isInstallerFile

/- weget.py lines 128-159: the archive / run / cleanup steps applied to the
resolved folder `target` after the optional relocation. -/
def afterRelocate (env : Env) (target : String) (archive run_installer : Bool)
    (evs : List Ev) : Int × List Ev :=
  if archive then
    if env.archiveOk then
      (0, evs ++ [Ev.archived (target ++ ".zip") target, Ev.removedTree target])
    else (1, evs)
  else if run_installer then
    match firstInstaller env.targetEntries with
    | some item =>
      if env.runOk then
        (if env.rmtreeOk then
           (0, evs ++ [Ev.ranInstaller (pathJoin target item), Ev.removedTree target])
         else (1, evs ++ [Ev.ranInstaller (pathJoin target item)]))
      else (1, evs)
    | none =>
      if env.rmtreeOk then (0, evs ++ [Ev.noExecutable target, Ev.removedTree target])
      else (1, evs ++ [Ev.noExecutable target])
  else
    if env.rmtreeOk then (0, evs ++ [Ev.removedTree target]) else (1, evs)

/- weget.py lines 110-162: post-processing of a successful single-package
download (locate, relocate, archive, run, cleanup). -/
def singleDownloadPost (env : Env) (package : String) (output_path : Option String)
    (archive run_installer : Bool) (evs : List Ev) : Int × List Ev :=
  match find_latest_download env.downloads package with
  | none => (1, evs)
  | some download_folder =>
    match output_path with
    | some p =>
      if p = "" then afterRelocate env download_folder archive run_installer evs
      else
        let target := pathJoin p download_folder
        let evs1 := if env.destExists then evs ++ [Ev.removedTree target] else evs
        if env.moveOk then
          afterRelocate env target archive run_installer (evs1 ++ [Ev.moved download_folder target])
        else (1, evs1)
    | none => afterRelocate env download_folder archive run_installer evs

/- weget.py lines 100-102: `os.makedirs(output_path, exist_ok=True)` is
performed when `output_path` is truthy, before the single/multi split. -/
def madeDirsEvs : Option String → List Ev
  | some p => if p = "" then [] else [Ev.madeDirs p]
  | none => []

/- weget.py `handle_multi_package` (lines 92-181). -/
def handle_multi_package (env : Env) (packages : List String) (command : String)
    (output_path : Option String) (archive run_installer : Bool) : Int × List Ev :=
  let evs0 := madeDirsEvs output_path
  match packages with
  | [package] =>
    let ret := env.wingetRet [command, package]
    let evs1 := evs0 ++ [Ev.ranWinget [command, package]]
    if ret ≠ 0 then (1, evs1)
    else if command = "download" then
      singleDownloadPost env package output_path archive run_installer evs1
    else (0, evs1)
  | _ =>
    let evs1 := evs0 ++
      packages.map (fun p => Ev.popen (spawnCmdlineFor command output_path p) (env.launchOk p))
    let failed := packages.filter (fun p => !(env.launchOk p))
    if failed.isEmpty then (0, evs1)
    else (1, evs1 ++ [Ev.printedFailedList failed])

/- Result of `parse_args` (weget.py lines 199-240): either a `sys.exit`
with the given code, or the parsed descriptor.  `warned` records whether
the archive/run warning of lines 237-239 was printed. -/
inductive ParseOutcome where
  | exit (code : Int)
  | ok (command : String) (packages : List String) (output_path : Option String)
      (archive_download : Bool) (run_installer : Bool) (warned : Bool)
deriving DecidableEq

/- The scanning loop of `parse_args` (weget.py lines 213-240). -/
def parseLoop (command : String) : List String → List String → Option String →
    Bool → Bool → Bool → Bool → ParseOutcome
  | [], packages, output_path, archive_download, run_installer, archive_flag, run_flag =>
    if archive_flag && run_flag then
      ParseOutcome.ok command packages output_path archive_download false true
    else
      ParseOutcome.ok command packages output_path archive_download run_installer false
  | arg :: rest, packages, output_path, archive_download, run_installer, archive_flag, run_flag =>
    if arg = "-o" ∨ arg = "--output" then
      match rest with
      | v :: rest2 =>
        parseLoop command rest2 packages (some v) archive_download run_installer archive_flag run_flag
      | [] => ParseOutcome.exit 1
    else if (arg = "-a" ∨ arg = "--archive") ∧ command = "download" then
      parseLoop command rest packages output_path true run_installer true run_flag
    else if (arg = "-r" ∨ arg = "--run") ∧ command = "download" then
      parseLoop command rest packages output_path archive_download true archive_flag true
    else if strStartsWith arg "-" then
      ParseOutcome.exit 1
    else
      parseLoop command rest (packages ++ [arg]) output_path archive_download run_installer archive_flag run_flag

/- weget.py `parse_args`, applied to `sys.argv[1:]`.  With no arguments at
all the program shows help and exits 0. -/
def parse_args (argv : List String) : ParseOutcome :=
  match argv with
  | [] => ParseOutcome.exit 0
  | command :: rest => parseLoop command rest [] none false false false false

/- weget.py lines 10-13. -/
def MULTI_PACKAGE_COMMANDS : List (String × String) :=
  [("install", "Installing"), ("download", "Downloading")]

/- Python `command in MULTI_PACKAGE_COMMANDS` (membership in the dict keys). -/
def isMultiCommand (command : String) : Bool :=
  (MULTI_PACKAGE_COMMANDS.map Prod.fst).contains command

/- weget.py lines 263-264: `-o` forwarding in the passthrough branch,
guarded by Python truthiness of `output_path`. -/
def outArgs : Option String → List String
  | some p => if p = "" then [] else ["-o", p]
  | none => []

/- weget.py `main` after a successful availability check and argument
parse (lines 253-266), with `command` already lower-cased. -/
def mainDispatch (env : Env) (command : String) (packages : List String)
    (output_path : Option String) (archive run_installer : Bool) : Int × List Ev :=
  if isMultiCommand command && !packages.isEmpty then
    if optTruthy output_path && (command != "download") then (1, [])
    else handle_multi_package env packages command output_path archive run_installer
  else
    let all_args := command :: (packages ++ outArgs output_path)
    (env.wingetRet all_args, [Ev.ranWinget all_args])

/- The whole program: process exit code and event trace of
`sys.exit(main())`, including the exits taken inside `parse_args`. -/
def mainRun (env : Env) (argv : List String) : Int × List Ev :=
  if !env.wingetAvailable then (1, [])
  else
    match parse_args argv with
    | ParseOutcome.exit c => (c, [])
    | ParseOutcome.ok command packages output_path archive run_installer _ =>
      mainDispatch env (strLower command) packages output_path archive run_installer

/-- Modelled from the spec: the upgrade-report parsing component
(UpgradeListParser) is described by the design document but is not present
in `src/weget.py` (version 0.4.0).  Separator heuristic per the spec: a
line containing "---" and longer than 20 characters. -/
def isSeparatorLine (line : String) : Bool :=
  strContains line "---" && decide (20 < line.length)

/-- Modelled from the spec: locate the first separator line, returning the
line immediately preceding it (the header row) and the lines after it. -/
def findSep (prev : String) : List String → Option (String × List String)
  | [] => none
  | l :: ls => if isSeparatorLine l then some (prev, ls) else findSep l ls

/- Offset of the first occurrence of `pat` in a character list. -/
def offAux (pat : List Char) : List Char → Nat → Option Nat
  | [], i => if pat.isEmpty then some i else none
  | c :: cs, i => if pat.isPrefixOf (c :: cs) then some i else offAux pat cs (i + 1)

def strOffsetOf (s pat : String) : Option Nat := offAux pat.data s.data 0

/- Python-style slice `s[a:b]`. -/
def sliceStr (s : String) (a b : Nat) : String :=
  String.mk ((s.data.drop a).take (b - a))

/-- Modelled from the spec: UpgradeListParser.  Locate the separator row,
take the character offsets of "Id" and "Version" in the header row as the
identifier column span, and slice that span out of every non-blank data row
at least as long as the header; tolerant, returning an empty sequence on
any structural mismatch (no separator, or header offsets missing). -/
def splitLines (text : String) : List String :=
  (pySplit (Char.ofNat 10) text.data).map String.mk

def parseUpgradeList (text : String) : List String :=
  match findSep "" (splitLines text) with
  | none => []
  | some (header, rest) =>
    match strOffsetOf header "Id", strOffsetOf header "Version" with
    | some idStart, some verStart =>
      rest.filterMap (fun line =>
        if pyTrim line ≠ "" ∧ header.length ≤ line.length then
          (if pyTrim (sliceStr line idStart verStart) ≠ ""
           then some (pyTrim (sliceStr line idStart verStart)) else none)
        else none)
    | _, _ => []

/-- Modelled from the spec: the Dispatcher resolving `upgrade --all`
treats an empty resolved upgrade list as "nothing to upgrade" and
short-circuits with success; a non-empty list is dispatched like any other
batch. -/
def upgradeAllExitCode (env : Env) (statusText : String) : Int :=
  match parseUpgradeList statusText with
  | [] => 0
  | targets => (handle_multi_package env targets "upgrade" none false false).1

/- Event classifiers used to state trace properties. -/
def isPopenEv : Ev → Bool
  | Ev.popen _ _ => true
  | _ => false

def popenEvs (evs : List Ev) : List Ev := evs.filter isPopenEv

def isArchivedEv : Ev → Bool
  | Ev.archived _ _ => true
  | _ => false

def hasArchiveEv (evs : List Ev) : Bool := evs.any isArchivedEv

def isRanEv : Ev → Bool
  | Ev.ranInstaller _ => true
  | _ => false

def hasRunEv (evs : List Ev) : Bool := evs.any isRanEv

def isMovedEv : Ev → Bool
  | Ev.moved _ _ => true
  | _ => false

def hasMovedEv (evs : List Ev) : Bool := evs.any isMovedEv

def isRemovedTreeEv : Ev → Bool
  | Ev.removedTree _ => true
  | _ => false

def hasRemovedTreeEv (evs : List Ev) : Bool := evs.any isRemovedTreeEv

def isFailListEv : Ev → Bool
  | Ev.printedFailedList _ => true
  | _ => false

def hasFailListEv (evs : List Ev) : Bool := evs.any isFailListEv

/- A benign concrete environment used to evaluate the model. -/
def env0 : Env where
  wingetAvailable := true
  wingetRet := fun _ => 0
  downloads := []
  destExists := false
  moveOk := true
  archiveOk := true
  runOk := true
  rmtreeOk := true
  targetEntries := []
  launchOk := fun _ => true

/- Environment whose backend returns exit code 3 for every invocation. -/
def envRet3 : Env := { env0 with wingetRet := fun _ => 3 }

/- Environment with one matching download folder for Microsoft.Edge. -/
def envEdge : Env := { env0 with downloads := [⟨"EdgeSetup", true, 5⟩] }

/- Environment in which every window launch fails. -/
def envNoLaunch : Env := { env0 with launchOk := fun _ => false }

/- The two branches of weget.py lines 167-170 build the same string. -/
theorem spawnCmdlineFor_eq (command : String) (output_path : Option String) (package : String) :
    spawnCmdlineFor command output_path package = spawnCmdline command package := by
  unfold spawnCmdlineFor
  split <;> rfl

/- Unfolding equation of `parseLoop` on an empty token list. -/
theorem parseLoop_nil (command : String) (ps : List String) (out : Option String)
    (a r af rf : Bool) :
    parseLoop command [] ps out a r af rf =
      if af && rf then ParseOutcome.ok command ps out a false true
      else ParseOutcome.ok command ps out a r false := rfl

/- Unfolding equation of `parseLoop` on a non-empty token list. -/
theorem parseLoop_cons (command arg : String) (rest ps : List String) (out : Option String)
    (a r af rf : Bool) :
    parseLoop command (arg :: rest) ps out a r af rf =
      (if arg = "-o" ∨ arg = "--output" then
        match rest with
        | v :: rest2 => parseLoop command rest2 ps (some v) a r af rf
        | [] => ParseOutcome.exit 1
      else if (arg = "-a" ∨ arg = "--archive") ∧ command = "download" then
        parseLoop command rest ps out true r true rf
      else if (arg = "-r" ∨ arg = "--run") ∧ command = "download" then
        parseLoop command rest ps out a true af true
      else if strStartsWith arg "-" then
        ParseOutcome.exit 1
      else
        parseLoop command rest (ps ++ [arg]) out a r af rf) := by
  rw [parseLoop.eq_def]

/- The archive/run warning can only be reported with both flag-presence
markers set, in which case the returned descriptor has `run_installer`
cleared and `archive_download` set (provided the flag-tracking invariant
`archive_flag → archive_download` held on entry, as it does from the start
of the scan). -/
theorem parseLoop_warned_inv (command : String) :
    ∀ (args ps : List String) (out : Option String) (a r af rf : Bool),
      (af = true → a = true) →
      ∀ (c2 : String) (ps2 : List String) (out2 : Option String) (a2 r2 : Bool),
      parseLoop command args ps out a r af rf = ParseOutcome.ok c2 ps2 out2 a2 r2 true →
      r2 = false ∧ a2 = true := by
  intro args ps out a r af rf
  induction args, ps, out, a, r, af, rf using parseLoop.induct command with
  | case1 ps out a r af rf hboth =>
    intro hinv c2 ps2 out2 a2 r2 heq
    rw [parseLoop_nil] at heq
    rw [if_pos hboth] at heq
    obtain ⟨haf, -⟩ := Bool.and_eq_true_iff.mp hboth
    cases heq
    exact ⟨rfl, hinv haf⟩
  | case2 ps out a r af rf hboth =>
    intro hinv c2 ps2 out2 a2 r2 heq
    rw [parseLoop_nil] at heq
    rw [if_neg hboth] at heq
    cases heq
  | case3 arg ps out a r af rf harg v rest2 ih =>
    intro hinv c2 ps2 out2 a2 r2 heq
    rw [parseLoop_cons, if_pos harg] at heq
    exact ih hinv c2 ps2 out2 a2 r2 heq
  | case4 arg ps out a r af rf harg =>
    intro hinv c2 ps2 out2 a2 r2 heq
    rw [parseLoop_cons, if_pos harg] at heq
    cases heq
  | case5 arg rest ps out a r af rf h1 h2 ih =>
    intro hinv c2 ps2 out2 a2 r2 heq
    rw [parseLoop_cons, if_neg h1, if_pos h2] at heq
    exact ih (fun _ => rfl) c2 ps2 out2 a2 r2 heq
  | case6 arg rest ps out a r af rf h1 h2 h3 ih =>
    intro hinv c2 ps2 out2 a2 r2 heq
    rw [parseLoop_cons, if_neg h1, if_neg h2, if_pos h3] at heq
    exact ih hinv c2 ps2 out2 a2 r2 heq
  | case7 arg rest ps out a r af rf h1 h2 h3 h4 =>
    intro hinv c2 ps2 out2 a2 r2 heq
    rw [parseLoop_cons, if_neg h1, if_neg h2, if_neg h3, if_pos h4] at heq
    cases heq
  | case8 arg rest ps out a r af rf h1 h2 h3 h4 ih =>
    intro hinv c2 ps2 out2 a2 r2 heq
    rw [parseLoop_cons, if_neg h1, if_neg h2, if_neg h3, if_neg h4] at heq
    exact ih hinv c2 ps2 out2 a2 r2 heq

/-- C1 (counterexample): in the code, `-a` and `--all` under the verb
`upgrade` are unknown options causing exit 1 (they do not set any
upgradeAll flag), and an `upgrade` invocation with two packages is a single
passthrough backend call with no spawned windows. -/
theorem claim_C1_counterexample :
    parse_args ["upgrade", "-a"] = ParseOutcome.exit 1 ∧
    parse_args ["upgrade", "--all"] = ParseOutcome.exit 1 ∧
    mainDispatch env0 "upgrade" ["a", "b"] none false false =
      (0, [Ev.ranWinget ["upgrade", "a", "b"]]) ∧
    popenEvs (mainDispatch env0 "upgrade" ["a", "b"] none false false).2 = [] := by
  decide

/-- C1 (amended): `-a` is recognized only for the verb `download` (as the
archive flag); under `upgrade` the tokens `-a` and `--all` hit the
unknown-option error path and exit 1 (`--all` does so under every verb),
there is no upgradeAll flag, and `upgrade` is not batch-capable: it is
always forwarded verbatim to the backend as one invocation. -/
theorem claim_C1_amended :
    (∀ (rest ps : List String) (out : Option String) (a r af rf : Bool),
      parseLoop "upgrade" ("-a" :: rest) ps out a r af rf = ParseOutcome.exit 1) ∧
    (∀ (command : String) (rest ps : List String) (out : Option String) (a r af rf : Bool),
      parseLoop command ("--all" :: rest) ps out a r af rf = ParseOutcome.exit 1) ∧
    (∀ (env : Env) (ps : List String) (out : Option String) (a r : Bool),
      mainDispatch env "upgrade" ps out a r =
        (env.wingetRet ("upgrade" :: (ps ++ outArgs out)),
         [Ev.ranWinget ("upgrade" :: (ps ++ outArgs out))])) := by
  refine ⟨?_, ?_, ?_⟩
  · intro rest ps out a r af rf
    rw [parseLoop_cons]
    simp [strStartsWith]
  · intro command rest ps out a r af rf
    rw [parseLoop_cons]
    simp [strStartsWith]
  · intro env ps out a r
    rfl

/-- C2 (counterexample): with outputPath set and the verb `list` (not
`download`), the program does not reject; it invokes the backend, passing
`-o` through, and exits with the backend's code (0 here). -/
theorem claim_C2_counterexample :
    mainRun env0 ["list", "pkg", "-o", "out"] =
      (0, [Ev.ranWinget ["list", "pkg", "-o", "out"]]) := by
  decide

/-- C2 (amended): a set (non-empty) outputPath is rejected with exit 1 and
no backend invocation exactly for the verb `install` with a non-empty
package list; for any verb outside the multi-package table the combination
is not rejected — the outputPath is forwarded to the backend as `-o` in a
single passthrough invocation. -/
theorem claim_C2_amended :
    (∀ (env : Env) (ps : List String) (p : String) (a r : Bool),
      ps ≠ [] → p ≠ "" →
      mainDispatch env "install" ps (some p) a r = (1, [])) ∧
    (∀ (env : Env) (cmd : String) (ps : List String) (p : String) (a r : Bool),
      isMultiCommand cmd = false →
      mainDispatch env cmd ps (some p) a r =
        (env.wingetRet (cmd :: (ps ++ outArgs (some p))),
         [Ev.ranWinget (cmd :: (ps ++ outArgs (some p)))])) := by
  constructor
  · intro env ps p a r hps hp
    match ps with
    | q :: qs =>
      simp [mainDispatch, isMultiCommand, MULTI_PACKAGE_COMMANDS, optTruthy, hp]
  · intro env cmd ps p a r hcmd
    simp only [mainDispatch, hcmd]
    simp

/-- C2 witness: the amended statement applied at concrete inputs. -/
theorem claim_C2_witness :
    mainDispatch env0 "install" ["pkg"] (some "out") false false = (1, []) ∧
    mainDispatch env0 "list" ["pkg"] (some "out") false false =
      (0, [Ev.ranWinget ["list", "pkg", "-o", "out"]]) := by
  constructor
  · exact claim_C2_amended.1 env0 ["pkg"] "out" false false (by decide) (by decide)
  · have h := claim_C2_amended.2 env0 "list" ["pkg"] "out" false false (by decide)
    simpa using h

/-- C4 (counterexample): a passthrough invocation returns the backend's own
exit code unchanged; with a backend returning 3, the process exit code is
3, which is neither 0 nor 1. -/
theorem claim_C4_counterexample :
    mainRun envRet3 ["list"] = (3, [Ev.ranWinget ["list"]]) ∧
    ¬((mainRun envRet3 ["list"]).1 = 0 ∨ (mainRun envRet3 ["list"]).1 = 1) := by
  decide

/- Unfolding equations of `handle_multi_package` at each package-list shape. -/
theorem handle_multi_nil (env : Env) (cmd : String) (out : Option String) (a r : Bool) :
    handle_multi_package env [] cmd out a r = (0, madeDirsEvs out ++ []) := rfl

theorem handle_multi_one (env : Env) (pkg cmd : String) (out : Option String) (a r : Bool) :
    handle_multi_package env [pkg] cmd out a r =
      (let evs1 := madeDirsEvs out ++ [Ev.ranWinget [cmd, pkg]]
       if env.wingetRet [cmd, pkg] ≠ 0 then (1, evs1)
       else if cmd = "download" then singleDownloadPost env pkg out a r evs1
       else (0, evs1)) := rfl

theorem handle_multi_two (env : Env) (p1 p2 : String) (t : List String) (cmd : String)
    (out : Option String) (a r : Bool) :
    handle_multi_package env (p1 :: p2 :: t) cmd out a r =
      (let evs1 := madeDirsEvs out ++
        (p1 :: p2 :: t).map (fun p => Ev.popen (spawnCmdlineFor cmd out p) (env.launchOk p))
       let failed := (p1 :: p2 :: t).filter (fun p => !(env.launchOk p))
       if failed.isEmpty then (0, evs1)
       else (1, evs1 ++ [Ev.printedFailedList failed])) := rfl

/- The directory-creation trace contains no other kind of event. -/
theorem popenEvs_madeDirs (out : Option String) : popenEvs (madeDirsEvs out) = [] := by
  rcases out with _ | p
  · rfl
  · unfold madeDirsEvs
    split <;> simp [popenEvs, isPopenEv]

/- The launch loop's failed list is empty exactly when every launch
succeeded. -/
theorem filter_not_isEmpty_eq_all (f : String → Bool) (ps : List String) :
    (ps.filter (fun p => !(f p))).isEmpty = ps.all f := by
  induction ps with
  | nil => rfl
  | cons p t ih =>
    simp only [List.filter_cons, List.all_cons]
    cases hf : f p <;> simp [ih]

/- The post-processing pipeline only returns exit code 0 or 1. -/
theorem afterRelocate_exit (env : Env) (t : String) (a r : Bool) (evs : List Ev) :
    (afterRelocate env t a r evs).1 = 0 ∨ (afterRelocate env t a r evs).1 = 1 := by
  unfold afterRelocate
  split
  · split <;> simp
  · split
    · split
      · split
        · split <;> simp
        · simp
      · split <;> simp
    · split <;> simp

theorem singleDownloadPost_exit (env : Env) (pkg : String) (out : Option String)
    (a r : Bool) (evs : List Ev) :
    (singleDownloadPost env pkg out a r evs).1 = 0 ∨
    (singleDownloadPost env pkg out a r evs).1 = 1 := by
  unfold singleDownloadPost
  repeat' split
  all_goals first
    | exact afterRelocate_exit ..
    | simp

theorem handle_multi_exit (env : Env) (ps : List String) (cmd : String) (out : Option String)
    (a r : Bool) :
    (handle_multi_package env ps cmd out a r).1 = 0 ∨
    (handle_multi_package env ps cmd out a r).1 = 1 := by
  match ps with
  | [] => rw [handle_multi_nil]; simp
  | [pkg] =>
    rw [handle_multi_one]
    simp only []
    split
    · simp
    · split
      · exact singleDownloadPost_exit ..
      · simp
  | p1 :: p2 :: t =>
    rw [handle_multi_two]
    simp only []
    split <;> simp

/- The pipeline never records a spawned window. -/
theorem popenEvs_afterRelocate (env : Env) (t : String) (a r : Bool) (evs : List Ev) :
    popenEvs (afterRelocate env t a r evs).2 = popenEvs evs := by
  unfold afterRelocate
  repeat' split
  all_goals simp [popenEvs, List.filter_append, isPopenEv]

theorem popenEvs_singleDownloadPost (env : Env) (pkg : String) (out : Option String)
    (a r : Bool) (evs : List Ev) :
    popenEvs (singleDownloadPost env pkg out a r evs).2 = popenEvs evs := by
  unfold singleDownloadPost
  repeat' split
  all_goals first
    | rfl
    | (rw [popenEvs_afterRelocate]; try simp [popenEvs, List.filter_append, isPopenEv])
    | simp [popenEvs, List.filter_append, isPopenEv]

/- Event classifiers distribute over trace concatenation. -/
theorem hasRunEv_append (l1 l2 : List Ev) :
    hasRunEv (l1 ++ l2) = (hasRunEv l1 || hasRunEv l2) := List.any_append
theorem hasArchiveEv_append (l1 l2 : List Ev) :
    hasArchiveEv (l1 ++ l2) = (hasArchiveEv l1 || hasArchiveEv l2) := List.any_append
theorem hasFailListEv_append (l1 l2 : List Ev) :
    hasFailListEv (l1 ++ l2) = (hasFailListEv l1 || hasFailListEv l2) := List.any_append
theorem hasMovedEv_append (l1 l2 : List Ev) :
    hasMovedEv (l1 ++ l2) = (hasMovedEv l1 || hasMovedEv l2) := List.any_append
theorem hasRemovedTreeEv_append (l1 l2 : List Ev) :
    hasRemovedTreeEv (l1 ++ l2) = (hasRemovedTreeEv l1 || hasRemovedTreeEv l2) := List.any_append

/- Event-class lemmas: the madeDirs trace holds only madeDirs events. -/
theorem hasRunEv_madeDirs (out : Option String) : hasRunEv (madeDirsEvs out) = false := by
  rcases out with _ | p
  · rfl
  · unfold madeDirsEvs
    split <;> simp [hasRunEv, isRanEv]

theorem hasArchiveEv_madeDirs (out : Option String) : hasArchiveEv (madeDirsEvs out) = false := by
  rcases out with _ | p
  · rfl
  · unfold madeDirsEvs
    split <;> simp [hasArchiveEv, isArchivedEv]

theorem hasFailListEv_madeDirs (out : Option String) : hasFailListEv (madeDirsEvs out) = false := by
  rcases out with _ | p
  · rfl
  · unfold madeDirsEvs
    split <;> simp [hasFailListEv, isFailListEv]

theorem hasMovedEv_madeDirs (out : Option String) : hasMovedEv (madeDirsEvs out) = false := by
  rcases out with _ | p
  · rfl
  · unfold madeDirsEvs
    split <;> simp [hasMovedEv, isMovedEv]

theorem hasRemovedTreeEv_madeDirs (out : Option String) :
    hasRemovedTreeEv (madeDirsEvs out) = false := by
  rcases out with _ | p
  · rfl
  · unfold madeDirsEvs
    split <;> simp [hasRemovedTreeEv, isRemovedTreeEv]

/- With the archive flag set, the pipeline never runs an installer. -/
theorem hasRunEv_afterRelocate_archive (env : Env) (t : String) (r : Bool) (evs : List Ev) :
    hasRunEv (afterRelocate env t true r evs).2 = hasRunEv evs := by
  unfold afterRelocate
  repeat' split
  all_goals simp_all [hasRunEv, List.any_append, isRanEv]

/- Without the archive flag, the pipeline never archives. -/
theorem hasArchiveEv_afterRelocate_noarchive (env : Env) (t : String) (r : Bool) (evs : List Ev) :
    hasArchiveEv (afterRelocate env t false r evs).2 = hasArchiveEv evs := by
  unfold afterRelocate
  repeat' split
  all_goals simp_all [hasArchiveEv, List.any_append, isArchivedEv]

theorem hasRunEv_singleDownloadPost_archive (env : Env) (pkg : String) (out : Option String)
    (r : Bool) (evs : List Ev) :
    hasRunEv (singleDownloadPost env pkg out true r evs).2 = hasRunEv evs := by
  unfold singleDownloadPost
  repeat' split
  all_goals first
    | rfl
    | (rw [hasRunEv_afterRelocate_archive]; try simp [hasRunEv, List.any_append, isRanEv])
    | simp [hasRunEv, List.any_append, isRanEv]

theorem hasArchiveEv_singleDownloadPost_noarchive (env : Env) (pkg : String)
    (out : Option String) (r : Bool) (evs : List Ev) :
    hasArchiveEv (singleDownloadPost env pkg out false r evs).2 = hasArchiveEv evs := by
  unfold singleDownloadPost
  repeat' split
  all_goals first
    | rfl
    | (rw [hasArchiveEv_afterRelocate_noarchive];
       try simp [hasArchiveEv, List.any_append, isArchivedEv])
    | simp [hasArchiveEv, List.any_append, isArchivedEv]

theorem hasRunEv_handle_archive (env : Env) (ps : List String) (cmd : String)
    (out : Option String) (r : Bool) :
    hasRunEv (handle_multi_package env ps cmd out true r).2 = false := by
  match ps with
  | [] =>
    rw [handle_multi_nil]
    show hasRunEv (madeDirsEvs out ++ []) = false
    rw [List.append_nil]
    exact hasRunEv_madeDirs out
  | [pkg] =>
    rw [handle_multi_one]
    simp only []
    split
    · rw [hasRunEv_append, hasRunEv_madeDirs]
      simp [hasRunEv, isRanEv]
    · split
      · rw [hasRunEv_singleDownloadPost_archive, hasRunEv_append, hasRunEv_madeDirs]
        simp [hasRunEv, isRanEv]
      · rw [hasRunEv_append, hasRunEv_madeDirs]
        simp [hasRunEv, isRanEv]
  | p1 :: p2 :: t =>
    rw [handle_multi_two]
    simp only []
    split
    · rw [hasRunEv_append, hasRunEv_madeDirs]
      simp [hasRunEv, List.any_map, Function.comp, isRanEv]
    · rw [hasRunEv_append, hasRunEv_append, hasRunEv_madeDirs]
      simp [hasRunEv, List.any_map, Function.comp, isRanEv]

theorem hasArchiveEv_handle_noarchive (env : Env) (ps : List String) (cmd : String)
    (out : Option String) (r : Bool) :
    hasArchiveEv (handle_multi_package env ps cmd out false r).2 = false := by
  match ps with
  | [] =>
    rw [handle_multi_nil]
    show hasArchiveEv (madeDirsEvs out ++ []) = false
    rw [List.append_nil]
    exact hasArchiveEv_madeDirs out
  | [pkg] =>
    rw [handle_multi_one]
    simp only []
    split
    · rw [hasArchiveEv_append, hasArchiveEv_madeDirs]
      simp [hasArchiveEv, isArchivedEv]
    · split
      · rw [hasArchiveEv_singleDownloadPost_noarchive, hasArchiveEv_append,
          hasArchiveEv_madeDirs]
        simp [hasArchiveEv, isArchivedEv]
      · rw [hasArchiveEv_append, hasArchiveEv_madeDirs]
        simp [hasArchiveEv, isArchivedEv]
  | p1 :: p2 :: t =>
    rw [handle_multi_two]
    simp only []
    split
    · rw [hasArchiveEv_append, hasArchiveEv_madeDirs]
      simp [hasArchiveEv, List.any_map, Function.comp, isArchivedEv]
    · rw [hasArchiveEv_append, hasArchiveEv_append, hasArchiveEv_madeDirs]
      simp [hasArchiveEv, List.any_map, Function.comp, isArchivedEv]

/- Events present on entry to the pipeline are preserved in its trace. -/
theorem mem_afterRelocate (env : Env) (t : String) (a r : Bool) (evs : List Ev) (e : Ev)
    (he : e ∈ evs) : e ∈ (afterRelocate env t a r evs).2 := by
  unfold afterRelocate
  repeat' split
  all_goals simp_all [List.mem_append]

theorem mem_singleDownloadPost (env : Env) (pkg : String) (out : Option String)
    (a r : Bool) (evs : List Ev) (e : Ev) (he : e ∈ evs) :
    e ∈ (singleDownloadPost env pkg out a r evs).2 := by
  unfold singleDownloadPost
  repeat' split
  all_goals first
    | exact he
    | (apply mem_afterRelocate; simp [List.mem_append, he])
    | simp [List.mem_append, he]

theorem popenEvs_append (l1 l2 : List Ev) :
    popenEvs (l1 ++ l2) = popenEvs l1 ++ popenEvs l2 := by
  simp [popenEvs, List.filter_append]

/- A trace of launch attempts is preserved by the popen filter. -/
theorem popenEvs_map_popen (f : String → String) (g : String → Bool) :
    ∀ l : List String,
      popenEvs (l.map (fun p => Ev.popen (f p) (g p))) = l.map (fun p => Ev.popen (f p) (g p))
  | [] => rfl
  | x :: xs => by
    have ihx := popenEvs_map_popen f g xs
    simp only [popenEvs, List.map_cons, List.filter_cons] at ihx ⊢
    simp [isPopenEv, ihx]

/-- C3 (code evaluation): a single-package download with an output path and
no archive flag moves the artifact folder to the output directory and then
deletes the moved copy during cleanup, exiting 0; the moved copy does not
remain on disk. -/
theorem claim_C3_behavior :
    handle_multi_package envEdge ["Microsoft.Edge"] "download" (some "out") false false =
      (0, [Ev.madeDirs "out", Ev.ranWinget ["download", "Microsoft.Edge"],
           Ev.moved "EdgeSetup" (pathJoin "out" "EdgeSetup"),
           Ev.removedTree (pathJoin "out" "EdgeSetup")]) ∧
    Ev.removedTree (pathJoin "out" "EdgeSetup") ∈
      (handle_multi_package envEdge ["Microsoft.Edge"] "download" (some "out") false false).2 := by
  decide

/-- C4 (amended): every invocation handled by the multi-package dispatcher
exits 0 or 1; but a passthrough verb returns the backend tool's own exit
code unchanged (exceptions having been mapped to 1 inside run_winget), and
an empty argument list exits 0 (help) when the backend is available, 1
otherwise. -/
theorem claim_C4_amended :
    (∀ (env : Env) (ps : List String) (cmd : String) (out : Option String) (a r : Bool),
      (handle_multi_package env ps cmd out a r).1 = 0 ∨
      (handle_multi_package env ps cmd out a r).1 = 1) ∧
    (∀ (env : Env) (cmd : String) (ps : List String) (out : Option String) (a r : Bool),
      isMultiCommand cmd = false →
      mainDispatch env cmd ps out a r =
        (env.wingetRet (cmd :: (ps ++ outArgs out)),
         [Ev.ranWinget (cmd :: (ps ++ outArgs out))])) ∧
    (∀ env : Env, mainRun env [] =
      if env.wingetAvailable then ((0 : Int), ([] : List Ev)) else (1, [])) := by
  refine ⟨fun env ps cmd out a r => handle_multi_exit env ps cmd out a r, ?_, ?_⟩
  · intro env cmd ps out a r hcmd
    simp [mainDispatch, hcmd]
  · intro env
    cases h : env.wingetAvailable <;> simp [mainRun, h, parse_args]

/-- C4 witness: the amended statement applied at concrete inputs. -/
theorem claim_C4_witness :
    ((handle_multi_package env0 ["p"] "install" none false false).1 = 0 ∨
     (handle_multi_package env0 ["p"] "install" none false false).1 = 1) ∧
    mainDispatch env0 "list" [] none false false =
      (env0.wingetRet ["list"], [Ev.ranWinget ["list"]]) := by
  constructor
  · exact claim_C4_amended.1 env0 ["p"] "install" none false false
  · have h := claim_C4_amended.2.1 env0 "list" [] none false false (by decide)
    simpa using h

/-- C5 (confirmed): with exactly one package the dispatcher runs the
backend synchronously in the current console and spawns no detached
process; with two or more packages it records exactly one launch attempt
per package (in order, with the per-package command line), and the exit
code is 0 exactly when every launch succeeded, independent of the spawned
operations' own outcomes. -/
theorem claim_C5_dispatch (env : Env) (ps : List String) (cmd : String)
    (out : Option String) (a r : Bool) :
    (∀ p, ps = [p] →
      popenEvs (handle_multi_package env ps cmd out a r).2 = [] ∧
      Ev.ranWinget [cmd, p] ∈ (handle_multi_package env ps cmd out a r).2) ∧
    (2 ≤ ps.length →
      popenEvs (handle_multi_package env ps cmd out a r).2 =
        ps.map (fun p => Ev.popen (spawnCmdlineFor cmd out p) (env.launchOk p)) ∧
      (handle_multi_package env ps cmd out a r).1 =
        (if ps.all env.launchOk then (0 : Int) else 1)) := by
  constructor
  · rintro p rfl
    rw [handle_multi_one]
    simp only []
    have hmem : Ev.ranWinget [cmd, p] ∈ madeDirsEvs out ++ [Ev.ranWinget [cmd, p]] := by
      simp
    constructor
    · split
      · rw [popenEvs_append, popenEvs_madeDirs]
        simp [popenEvs, isPopenEv]
      · split
        · rw [popenEvs_singleDownloadPost, popenEvs_append, popenEvs_madeDirs]
          simp [popenEvs, isPopenEv]
        · rw [popenEvs_append, popenEvs_madeDirs]
          simp [popenEvs, isPopenEv]
    · split
      · exact hmem
      · split
        · exact mem_singleDownloadPost env p out a r _ _ hmem
        · exact hmem
  · intro hlen
    cases ps with
    | nil => simp at hlen
    | cons p1 t1 =>
      cases t1 with
      | nil => simp at hlen
      | cons p2 t =>
        rw [handle_multi_two]
        simp only []
        have hfe : ((p1 :: p2 :: t).filter (fun q => !(env.launchOk q))).isEmpty =
            (p1 :: p2 :: t).all env.launchOk :=
          filter_not_isEmpty_eq_all env.launchOk (p1 :: p2 :: t)
        constructor
        · by_cases hf : ((p1 :: p2 :: t).filter (fun q => !(env.launchOk q))).isEmpty
          · rw [if_pos hf, popenEvs_append, popenEvs_madeDirs,
              popenEvs_map_popen (fun p => spawnCmdlineFor cmd out p) env.launchOk]
            simp
          · rw [if_neg hf, popenEvs_append, popenEvs_append, popenEvs_madeDirs,
              popenEvs_map_popen (fun p => spawnCmdlineFor cmd out p) env.launchOk]
            simp [popenEvs, isPopenEv]
        · rw [← hfe]
          by_cases hf : ((p1 :: p2 :: t).filter (fun q => !(env.launchOk q))).isEmpty
          · rw [if_pos hf, hf]
            simp
          · have hf2 : ((p1 :: p2 :: t).filter (fun q => !(env.launchOk q))).isEmpty = false := by
              revert hf
              cases ((p1 :: p2 :: t).filter (fun q => !(env.launchOk q))).isEmpty <;> simp
            rw [if_neg hf, hf2]
            simp

/-- C5 witness: the dispatch statement applied at concrete inputs. -/
theorem claim_C5_witness :
    (popenEvs (handle_multi_package env0 ["p"] "install" none false false).2 = [] ∧
     Ev.ranWinget ["install", "p"] ∈
       (handle_multi_package env0 ["p"] "install" none false false).2) ∧
    (popenEvs (handle_multi_package envNoLaunch ["a", "b"] "install" none false false).2 =
       ["a", "b"].map
         (fun p => Ev.popen (spawnCmdlineFor "install" none p) (envNoLaunch.launchOk p)) ∧
     (handle_multi_package envNoLaunch ["a", "b"] "install" none false false).1 =
       (if ["a", "b"].all envNoLaunch.launchOk then (0 : Int) else 1)) := by
  constructor
  · exact (claim_C5_dispatch env0 ["p"] "install" none false false).1 "p" rfl
  · exact (claim_C5_dispatch envNoLaunch ["a", "b"] "install" none false false).2 (by decide)

/- Once both flag-presence markers are set during the scan, any descriptor
eventually returned has run_installer cleared and the warning reported. -/
theorem parseLoop_both_flags (command : String) :
    ∀ (args ps : List String) (out : Option String) (a r af rf : Bool),
      af = true → rf = true →
      ∀ (c2 : String) (ps2 : List String) (out2 : Option String) (a2 r2 w2 : Bool),
      parseLoop command args ps out a r af rf = ParseOutcome.ok c2 ps2 out2 a2 r2 w2 →
      r2 = false ∧ w2 = true := by
  intro args ps out a r af rf
  induction args, ps, out, a, r, af, rf using parseLoop.induct command with
  | case1 ps out a r af rf hboth =>
    intro haf hrf c2 ps2 out2 a2 r2 w2 heq
    rw [parseLoop_nil, if_pos hboth] at heq
    cases heq
    exact ⟨rfl, rfl⟩
  | case2 ps out a r af rf hboth =>
    intro haf hrf c2 ps2 out2 a2 r2 w2 heq
    subst haf
    subst hrf
    simp at hboth
  | case3 arg ps out a r af rf harg v rest2 ih =>
    intro haf hrf c2 ps2 out2 a2 r2 w2 heq
    rw [parseLoop_cons, if_pos harg] at heq
    exact ih haf hrf c2 ps2 out2 a2 r2 w2 heq
  | case4 arg ps out a r af rf harg =>
    intro haf hrf c2 ps2 out2 a2 r2 w2 heq
    rw [parseLoop_cons, if_pos harg] at heq
    cases heq
  | case5 arg rest ps out a r af rf h1 h2 ih =>
    intro haf hrf c2 ps2 out2 a2 r2 w2 heq
    rw [parseLoop_cons, if_neg h1, if_pos h2] at heq
    exact ih rfl hrf c2 ps2 out2 a2 r2 w2 heq
  | case6 arg rest ps out a r af rf h1 h2 h3 ih =>
    intro haf hrf c2 ps2 out2 a2 r2 w2 heq
    rw [parseLoop_cons, if_neg h1, if_neg h2, if_pos h3] at heq
    exact ih haf rfl c2 ps2 out2 a2 r2 w2 heq
  | case7 arg rest ps out a r af rf h1 h2 h3 h4 =>
    intro haf hrf c2 ps2 out2 a2 r2 w2 heq
    rw [parseLoop_cons, if_neg h1, if_neg h2, if_neg h3, if_pos h4] at heq
    cases heq
  | case8 arg rest ps out a r af rf h1 h2 h3 h4 ih =>
    intro haf hrf c2 ps2 out2 a2 r2 w2 heq
    rw [parseLoop_cons, if_neg h1, if_neg h2, if_neg h3, if_neg h4] at heq
    exact ih haf hrf c2 ps2 out2 a2 r2 w2 heq

/-- C6 (confirmed): once both the archive and run flags have been scanned,
every returned descriptor has run_installer = false and the warning is
reported; whenever parse_args reports the archive/run warning the returned
descriptor has run_installer = false and archive_download = true (archiving
still proceeds); and no execution trace of the dispatcher ever contains
both an archive event and a run-installer event. -/
theorem claim_C6_mutual_exclusion :
    (∀ (command : String) (args ps : List String) (out : Option String) (a r : Bool)
       (c2 : String) (ps2 : List String) (out2 : Option String) (a2 r2 w2 : Bool),
      parseLoop command args ps out a r true true = ParseOutcome.ok c2 ps2 out2 a2 r2 w2 →
      r2 = false ∧ w2 = true) ∧
    (∀ (argv : List String) (c2 : String) (ps2 : List String) (out2 : Option String)
       (a2 r2 : Bool),
      parse_args argv = ParseOutcome.ok c2 ps2 out2 a2 r2 true → r2 = false ∧ a2 = true) ∧
    (∀ (env : Env) (ps : List String) (cmd : String) (out : Option String) (a r : Bool),
      hasArchiveEv (handle_multi_package env ps cmd out a r).2 = true →
      hasRunEv (handle_multi_package env ps cmd out a r).2 = false) := by
  refine ⟨?_, ?_, ?_⟩
  · intro command args ps out a r c2 ps2 out2 a2 r2 w2 heq
    exact parseLoop_both_flags command args ps out a r true true rfl rfl
      c2 ps2 out2 a2 r2 w2 heq
  · intro argv c2 ps2 out2 a2 r2 heq
    match argv with
    | [] => simp [parse_args] at heq
    | command :: rest =>
      simp only [parse_args] at heq
      exact parseLoop_warned_inv command rest [] none false false false false
        (fun h => h) c2 ps2 out2 a2 r2 heq
  · intro env ps cmd out a r harch
    cases a with
    | false =>
      rw [hasArchiveEv_handle_noarchive] at harch
      cases harch
    | true => exact hasRunEv_handle_archive env ps cmd out r

/-- C6 witness: the statement applied at concrete inputs. -/
theorem claim_C6_witness :
    (false = false ∧ true = true) ∧
    (false = false ∧ true = true) ∧
    hasRunEv (handle_multi_package envEdge ["Microsoft.Edge"] "download" none true false).2 =
      false := by
  refine ⟨?_, ?_, ?_⟩
  · exact claim_C6_mutual_exclusion.1 "download" [] ["p"] none true false
      "download" ["p"] none true false true (by decide)
  · exact claim_C6_mutual_exclusion.2.1 ["download", "p", "-a", "-r"] "download" ["p"] none
      true false (by decide)
  · exact claim_C6_mutual_exclusion.2.2 envEdge ["Microsoft.Edge"] "download" none true false
      (by decide)

/-- C7 (counterexample): when every launch fails, the itemized list of
failed packages is still printed (there is no separate bulk messaging
path), contradicting the claim that the list appears only on partial
failure. -/
theorem claim_C7_counterexample :
    handle_multi_package envNoLaunch ["pkga", "pkgb"] "install" none false false =
      (1, [Ev.popen (spawnCmdline "install" "pkga") false,
           Ev.popen (spawnCmdline "install" "pkgb") false,
           Ev.printedFailedList ["pkga", "pkgb"]]) ∧
    (["pkga", "pkgb"].all (fun p => !(envNoLaunch.launchOk p))) = true ∧
    hasFailListEv
      (handle_multi_package envNoLaunch ["pkga", "pkgb"] "install" none false false).2 =
      true := by
  decide

/-- C7 (amended): in a batch launch round the itemized failed-package list
is printed exactly when at least one launch failed, regardless of whether
some or all packages failed. -/
theorem claim_C7_amended (env : Env) (ps : List String) (cmd : String) (out : Option String)
    (a r : Bool) (hlen : 2 ≤ ps.length) :
    hasFailListEv (handle_multi_package env ps cmd out a r).2 = !(ps.all env.launchOk) := by
  cases ps with
  | nil => simp at hlen
  | cons p1 t1 =>
    cases t1 with
    | nil => simp at hlen
    | cons p2 t =>
      rw [handle_multi_two]
      simp only []
      rw [← filter_not_isEmpty_eq_all env.launchOk (p1 :: p2 :: t)]
      by_cases hf : ((p1 :: p2 :: t).filter (fun q => !(env.launchOk q))).isEmpty
      · rw [if_pos hf, hf, hasFailListEv_append, hasFailListEv_madeDirs]
        simp [hasFailListEv, List.any_map, Function.comp, isFailListEv]
      · have hf2 : ((p1 :: p2 :: t).filter (fun q => !(env.launchOk q))).isEmpty = false := by
          revert hf
          cases ((p1 :: p2 :: t).filter (fun q => !(env.launchOk q))).isEmpty <;> simp
        rw [if_neg hf, hf2, hasFailListEv_append]
        simp [hasFailListEv, isFailListEv]

/-- C7 witness: the amended statement applied at a concrete input. -/
theorem claim_C7_witness :
    hasFailListEv
      (handle_multi_package envNoLaunch ["a", "b"] "install" none false false).2 =
      !(["a", "b"].all envNoLaunch.launchOk) :=
  claim_C7_amended envNoLaunch ["a", "b"] "install" none false false (by decide)

/-- C10 (confirmed): a multi-package download with a (truthy) output path
creates the output directory and otherwise behaves exactly as without one:
the trace differs only by the directory-creation event (in particular the
spawned command lines are identical), the exit code is the same, and no
relocation, archiving, run, or folder-removal post-processing occurs. -/
theorem claim_C10_frame (env : Env) (ps : List String) (p : String) (a r : Bool)
    (hlen : 2 ≤ ps.length) (hp : p ≠ "") :
    (handle_multi_package env ps "download" (some p) a r).2 =
      Ev.madeDirs p :: (handle_multi_package env ps "download" none a r).2 ∧
    (handle_multi_package env ps "download" (some p) a r).1 =
      (handle_multi_package env ps "download" none a r).1 ∧
    hasMovedEv (handle_multi_package env ps "download" (some p) a r).2 = false ∧
    hasArchiveEv (handle_multi_package env ps "download" (some p) a r).2 = false ∧
    hasRunEv (handle_multi_package env ps "download" (some p) a r).2 = false ∧
    hasRemovedTreeEv (handle_multi_package env ps "download" (some p) a r).2 = false := by
  cases ps with
  | nil => simp at hlen
  | cons p1 t1 =>
    cases t1 with
    | nil => simp at hlen
    | cons p2 t =>
      have hmd : madeDirsEvs (some p) = [Ev.madeDirs p] := by simp [madeDirsEvs, hp]
      have hmd0 : madeDirsEvs none = ([] : List Ev) := rfl
      rw [handle_multi_two, handle_multi_two]
      simp only [spawnCmdlineFor_eq, hmd, hmd0]
      by_cases hf : ((p1 :: p2 :: t).filter (fun q => !(env.launchOk q))).isEmpty
      · simp [hf, hasMovedEv, hasArchiveEv, hasRunEv, hasRemovedTreeEv, List.any_append,
          List.any_map, Function.comp, isMovedEv, isArchivedEv, isRanEv, isRemovedTreeEv]
      · simp [hf, hasMovedEv, hasArchiveEv, hasRunEv, hasRemovedTreeEv, List.any_append,
          List.any_map, Function.comp, isMovedEv, isArchivedEv, isRanEv, isRemovedTreeEv]

/-- C10 witness: the frame statement applied at a concrete input. -/
theorem claim_C10_witness :
    (handle_multi_package env0 ["a", "b"] "download" (some "out") false false).2 =
      Ev.madeDirs "out" :: (handle_multi_package env0 ["a", "b"] "download" none false false).2 :=
  (claim_C10_frame env0 ["a", "b"] "out" false false (by decide) (by decide)).1

/- The substring test agrees with list-infix containment. -/
theorem containsAux_iff (pat : List Char) : ∀ l : List Char,
    (containsAux pat l = true ↔ pat <:+: l)
  | [] => by
    simp [containsAux, List.isEmpty_iff, List.infix_nil]
  | c :: cs => by
    simp [containsAux, List.infix_cons_iff, List.isPrefixOf_iff_prefix,
      containsAux_iff pat cs]

theorem strContains_iff (s pat : String) :
    strContains s pat = true ↔ pat.data <:+: s.data := containsAux_iff pat.data s.data

/- `pySplit` never returns the empty list of chunks. -/
theorem pySplit_ne_nil (sep : Char) : ∀ l : List Char, pySplit sep l ≠ []
  | [] => by simp [pySplit]
  | c :: cs => by
    rcases h : pySplit sep cs with _ | ⟨chunk, rest⟩
    · simp [pySplit, h]
    · simp only [pySplit, h]
      split <;> simp

/- A separator-free list splits into a single chunk, itself. -/
theorem pySplit_no_sep (sep : Char) : ∀ l : List Char, sep ∉ l → pySplit sep l = [l]
  | [], _ => rfl
  | c :: cs, h => by
    have hc : ¬c = sep := fun e => h (by simp [e])
    have hcs : sep ∉ cs := fun e => h (by simp [e])
    simp [pySplit, pySplit_no_sep sep cs hcs, hc]

/- Conversely, a single-chunk split means the separator was absent. -/
theorem pySplit_eq_singleton (sep : Char) : ∀ (l m : List Char),
    pySplit sep l = [m] → l = m ∧ sep ∉ l
  | [], m => by
    intro h
    simp only [pySplit, List.cons.injEq, and_true] at h
    exact ⟨h, by simp⟩
  | c :: cs, m => by
    intro h
    rcases hr : pySplit sep cs with _ | ⟨chunk, rest⟩
    · exact absurd hr (pySplit_ne_nil sep cs)
    · simp only [pySplit, hr] at h
      by_cases hc : c = sep
      · rw [if_pos hc] at h
        simp at h
      · rw [if_neg hc] at h
        simp only [List.cons.injEq] at h
        obtain ⟨hm, hrest⟩ := h
        obtain ⟨hcs, hnos⟩ := pySplit_eq_singleton sep cs chunk (by rw [hr, hrest])
        constructor
        · rw [← hm, hcs]
        · intro hmem
          rcases List.mem_cons.mp hmem with he | he
          · exact hc he.symm
          · exact hnos he

/- The default of getLastD is irrelevant on non-empty lists. -/
theorem getLastD_irrel {α : Type} (l : List α) (h : l ≠ []) (d1 d2 : α) :
    l.getLastD d1 = l.getLastD d2 := by
  cases l with
  | nil => exact absurd rfl h
  | cons a t => rw [List.getLastD_cons, List.getLastD_cons]

/- The last chunk of a split is a separator-free suffix, preceded either by
nothing or by a prefix ending in the separator. -/
theorem lastChunk_spec (sep : Char) : ∀ l : List Char,
    ∃ pre, l = pre ++ (pySplit sep l).getLastD l ∧
      sep ∉ (pySplit sep l).getLastD l ∧
      (pre = [] ∨ ∃ q, pre = q ++ [sep])
  | [] => ⟨[], by simp [pySplit, List.getLastD_cons], by simp [pySplit, List.getLastD_cons],
      Or.inl rfl⟩
  | c :: cs => by
    obtain ⟨pre, hpre, hns, hend⟩ := lastChunk_spec sep cs
    rcases hr : pySplit sep cs with _ | ⟨chunk, rest⟩
    · exact absurd hr (pySplit_ne_nil sep cs)
    rw [hr] at hpre hns
    by_cases hc : c = sep
    · subst hc
      have hsplit : pySplit c (c :: cs) = [] :: chunk :: rest := by
        simp [pySplit, hr]
      have hlast : (pySplit c (c :: cs)).getLastD (c :: cs) =
          (chunk :: rest).getLastD cs := by
        rw [hsplit, List.getLastD_cons, List.getLastD_cons, List.getLastD_cons]
      rw [hlast]
      refine ⟨c :: pre, by rw [hpre]; rfl, hns, Or.inr ?_⟩
      rcases hend with rfl | ⟨q, rfl⟩
      · exact ⟨[], rfl⟩
      · exact ⟨c :: q, by simp⟩
    · have hsplit : pySplit sep (c :: cs) = (c :: chunk) :: rest := by
        simp [pySplit, hr, hc]
      rcases rest with _ | ⟨r0, rs⟩
      · obtain ⟨hcs, hnos⟩ := pySplit_eq_singleton sep cs chunk hr
        have hlast : (pySplit sep (c :: cs)).getLastD (c :: cs) = c :: chunk := by
          rw [hsplit, List.getLastD_cons, List.getLastD_nil]
        rw [hlast]
        refine ⟨[], by rw [hcs]; rfl, ?_, Or.inl rfl⟩
        intro hmem
        rcases List.mem_cons.mp hmem with he | he
        · exact hc he.symm
        · exact hnos (hcs ▸ he)
      · have hlast : (pySplit sep (c :: cs)).getLastD (c :: cs) =
            (chunk :: r0 :: rs).getLastD cs := by
          rw [hsplit]
          simp only [List.getLastD_cons]
        rw [hlast]
        rcases hend with rfl | ⟨q, rfl⟩
        · simp only [List.nil_append] at hpre
          have hsingle : pySplit sep cs = [cs] := by
            refine pySplit_no_sep sep cs ?_
            rw [hpre]
            exact hns
          rw [hsingle] at hr
          simp at hr
        · refine ⟨c :: (q ++ [sep]), by rw [hpre]; rfl, hns, Or.inr ⟨c :: q, by simp⟩⟩

/- The short name is the suffix of the identifier after its last dot:
separator-free, and preceded by nothing or by a prefix ending in a dot. -/
theorem shortName_spec (pid : String) :
    ∃ pre, pid.data = pre ++ (shortName pid).data ∧
      Char.ofNat 46 ∉ (shortName pid).data ∧
      (pre = [] ∨ ∃ q, pre = q ++ [Char.ofNat 46]) :=
  lastChunk_spec (Char.ofNat 46) pid.data

/- The fold used by Python max over mtimes yields an element of the list. -/
theorem foldl_max_mem (es : List DirEntry) : ∀ e : DirEntry,
    es.foldl (fun best x => if best.mtime < x.mtime then x else best) e ∈ e :: es := by
  induction es with
  | nil => intro e; simp
  | cons x xs ih =>
    intro e
    simp only [List.foldl_cons]
    have h := ih (if e.mtime < x.mtime then x else e)
    rcases List.mem_cons.mp h with h1 | h1
    · rw [h1]
      split <;> simp
    · simp [List.mem_cons, h1]

/- The fold's result dominates the start element and all list elements. -/
theorem foldl_max_ge (es : List DirEntry) : ∀ e : DirEntry,
    e.mtime ≤ (es.foldl (fun best x => if best.mtime < x.mtime then x else best) e).mtime ∧
    ∀ x ∈ es,
      x.mtime ≤ (es.foldl (fun best x => if best.mtime < x.mtime then x else best) e).mtime := by
  induction es with
  | nil => intro e; simp
  | cons x xs ih =>
    intro e
    simp only [List.foldl_cons]
    obtain ⟨h1, h2⟩ := ih (if e.mtime < x.mtime then x else e)
    constructor
    · refine le_trans ?_ h1
      split
      · rename_i hlt
        exact le_of_lt hlt
      · exact le_refl _
    · intro y hy
      rcases List.mem_cons.mp hy with rfl | hy2
      · refine le_trans ?_ h1
        split
        · exact le_refl _
        · rename_i hnlt
          exact le_of_not_lt hnlt
      · exact h2 y hy2

/- Soundness of find_latest_download: the result is a directory of the
listing whose name contains the short name, with maximal mtime among all
such directories. -/
theorem find_latest_some (entries : List DirEntry) (pid f : String)
    (h : find_latest_download entries pid = some f) :
    ∃ e, e ∈ entries ∧ e.name = f ∧ e.isDir = true ∧
      (shortName pid).data <:+: e.name.data ∧
      ∀ e2 ∈ entries, e2.isDir = true → (shortName pid).data <:+: e2.name.data →
        e2.mtime ≤ e.mtime := by
  unfold find_latest_download at h
  rcases hm : maxByMtime (matchingFolders entries pid) with _ | e
  · rw [hm] at h
    cases h
  · rw [hm] at h
    have hname : e.name = f := by cases h; rfl
    rcases hmf : matchingFolders entries pid with _ | ⟨a, es⟩
    · rw [hmf] at hm
      cases hm
    · rw [hmf] at hm
      unfold maxByMtime at hm
      have hfold :
          es.foldl (fun best x => if best.mtime < x.mtime then x else best) a = e := by
        cases hm
        rfl
      have hmem : e ∈ matchingFolders entries pid := by
        rw [hmf, ← hfold]
        exact foldl_max_mem es a
      have hmem2 := List.mem_filter.mp hmem
      obtain ⟨hdir, hcontains⟩ := Bool.and_eq_true_iff.mp hmem2.2
      refine ⟨e, hmem2.1, hname, hdir, (strContains_iff e.name (shortName pid)).mp hcontains,
        ?_⟩
      intro e2 he2 hdir2 hinf2
      have he2m : e2 ∈ matchingFolders entries pid :=
        List.mem_filter.mpr ⟨he2, by
          rw [Bool.and_eq_true_iff]
          exact ⟨hdir2, (strContains_iff e2.name (shortName pid)).mpr hinf2⟩⟩
      rw [hmf] at he2m
      rcases List.mem_cons.mp he2m with rfl | h2
      · rw [← hfold]
        exact (foldl_max_ge es e2).1
      · rw [← hfold]
        exact (foldl_max_ge es a).2 e2 h2

/- Completeness: with no matching directory the scan reports nothing. -/
theorem find_latest_none (entries : List DirEntry) (pid : String)
    (h : ∀ e ∈ entries, ¬(e.isDir = true ∧ (shortName pid).data <:+: e.name.data)) :
    find_latest_download entries pid = none := by
  have hmf : matchingFolders entries pid = [] := by
    unfold matchingFolders
    rw [List.filter_eq_nil_iff]
    intro e he hpred
    obtain ⟨h1, h2⟩ := Bool.and_eq_true_iff.mp hpred
    exact h e he ⟨h1, (strContains_iff e.name (shortName pid)).mp h2⟩
  unfold find_latest_download
  rw [hmf]
  rfl

/-- C8 (confirmed): the short name is the substring of the package
identifier after its last dot; artifact location scans the Downloads
listing for directories whose name contains the short name and returns the
one with maximal modification time (the first such on ties); when no match
exists it returns nothing and the single-package download handler reports
failure with exit code 1. -/
theorem claim_C8_locate :
    (∀ pid : String, ∃ pre, pid.data = pre ++ (shortName pid).data ∧
      Char.ofNat 46 ∉ (shortName pid).data ∧
      (pre = [] ∨ ∃ q, pre = q ++ [Char.ofNat 46])) ∧
    (∀ (entries : List DirEntry) (pid f : String),
      find_latest_download entries pid = some f →
      ∃ e, e ∈ entries ∧ e.name = f ∧ e.isDir = true ∧
        (shortName pid).data <:+: e.name.data ∧
        ∀ e2 ∈ entries, e2.isDir = true → (shortName pid).data <:+: e2.name.data →
          e2.mtime ≤ e.mtime) ∧
    (∀ (entries : List DirEntry) (pid : String),
      (∀ e ∈ entries, ¬(e.isDir = true ∧ (shortName pid).data <:+: e.name.data)) →
      find_latest_download entries pid = none) ∧
    (∀ (env : Env) (pkg : String) (out : Option String) (a r : Bool),
      find_latest_download env.downloads pkg = none →
      env.wingetRet ["download", pkg] = 0 →
      (handle_multi_package env [pkg] "download" out a r).1 = 1) := by
  refine ⟨shortName_spec, find_latest_some, find_latest_none, ?_⟩
  intro env pkg out a r hfind hret
  have h1 : singleDownloadPost env pkg out a r
      (madeDirsEvs out ++ [Ev.ranWinget ["download", pkg]]) =
      (1, madeDirsEvs out ++ [Ev.ranWinget ["download", pkg]]) := by
    unfold singleDownloadPost
    rw [hfind]
  rw [handle_multi_one]
  simp only []
  rw [if_neg (by simp [hret])]
  simp only [if_true]
  rw [h1]

/-- C8 witness: the location statement applied at concrete inputs. -/
theorem claim_C8_witness :
    (handle_multi_package env0 ["A.B"] "download" none false false).1 = 1 ∧
    (∃ e, e ∈ envEdge.downloads ∧ e.name = "EdgeSetup" ∧ e.isDir = true ∧
      (shortName "Microsoft.Edge").data <:+: e.name.data ∧
      ∀ e2 ∈ envEdge.downloads, e2.isDir = true →
        (shortName "Microsoft.Edge").data <:+: e2.name.data → e2.mtime ≤ e.mtime) := by
  constructor
  · exact claim_C8_locate.2.2.2 env0 "A.B" none false false rfl rfl
  · exact claim_C8_locate.2.1 envEdge.downloads "Microsoft.Edge" "EdgeSetup" (by decide)

/- A text without separator lines makes findSep fail. -/
theorem findSep_none : ∀ (lines : List String),
    (∀ l ∈ lines, isSeparatorLine l = false) → ∀ prev, findSep prev lines = none
  | [] => fun _ _ => rfl
  | l :: ls => fun h prev => by
    have hl : isSeparatorLine l = false := h l (List.mem_cons_self l ls)
    have hstep : findSep prev (l :: ls) =
        if isSeparatorLine l then some (prev, ls) else findSep l ls := rfl
    rw [hstep, hl]
    simp only [Bool.false_eq_true, if_false]
    exact findSep_none ls (fun x hx => h x (List.mem_cons_of_mem l hx)) l

/-- C9 (spec-modelled): on input text with no separator line the upgrade
list parser returns the empty sequence rather than failing, and the caller
treats an empty resolved list as nothing to upgrade, exiting 0. -/
theorem claim_C9_no_separator (env : Env) (text : String)
    (h : ∀ l ∈ splitLines text, isSeparatorLine l = false) :
    parseUpgradeList text = [] ∧ upgradeAllExitCode env text = 0 := by
  have hp : parseUpgradeList text = [] := by
    unfold parseUpgradeList
    rw [findSep_none (splitLines text) h ""]
  refine ⟨hp, ?_⟩
  unfold upgradeAllExitCode
  rw [hp]

/-- C9 witness: the statement applied at a concrete input. -/
theorem claim_C9_witness :
    parseUpgradeList "No installed package found matching input criteria." = [] ∧
    upgradeAllExitCode env0 "No installed package found matching input criteria." = 0 :=
  claim_C9_no_separator env0 "No installed package found matching input criteria."
    (by decide)

end Weget
